import Mathlib

/-!
Verification of the ShorelarkCpp evolutionary-simulation engine.

This file gives a shallow embedding, over exact rationals, of the core
algorithms of the repository: the feed-forward neural-network stack
(neuron / layer / network with weight serialization), the genetic-algorithm
operators (roulette-wheel selection, uniform crossover, gaussian mutation),
the orchestrating evolve loop, the population statistics, the eye sensor,
the animal brain/kinematics update, and the simulation step / evolve state
machine.  Machine floats are modelled as rationals; the C library functions
sqrtf / atan2f / cosf / sinf, which have no exact rational counterpart, are
passed in as explicit function parameters so that every definition stays
computable.  The pseudo-random generator is modelled as a list of raw draws
in [-1, 1) that are consumed in order, exactly as the single underlying
uniform_real_distribution of random_generator is consumed by
generate_weight / generate_position / generate_rotation.
-/

set_option autoImplicit false

namespace Shorelark

/-- Truncation toward zero of a rational.  Models a C `static_cast<int>` of a
float as well as the truncation performed inside C `fmod`. -/
def ratTrunc (q : ℚ) : ℤ := if 0 ≤ q then ⌊q⌋ else ⌈q⌉

/-- Model of C `fmod(x, y)`: `x - y * trunc(x / y)`.  For `y > 0` the result
has the sign of `x` (it is not reduced into `[0, y)` for negative `x`). -/
def ratFmod (x y : ℚ) : ℚ := x - y * (ratTrunc (x / y) : ℚ)

/-- Model of `std::clamp(v, lo, hi)` for `lo ≤ hi`. -/
def clampQ (v lo hi : ℚ) : ℚ := min (max v lo) hi

/-! ## Neural network stack (src/libs/neural_network) -/

/-- Errors of `neuron<T>` (neuron.h). -/
inductive NeuronError
  | invalidInputSize
  | invalidWeightsSize
deriving DecidableEq

/-- Errors of `layer<T>` (layer.h). -/
inductive LayerError
  | notEnoughWeights
  | emptyNeurons
  | mismatchedInputs
  | invalidInputSize
deriving DecidableEq

/-- Errors of `network<T>` (network.h). -/
inductive NetworkError
  | invalidLayerCount
  | notEnoughWeights
  | invalidLayerTopology
  | tooManyWeights
  | networkNotInitialized
  | invalidInputSize
  | propagationError
deriving DecidableEq

/-- Model of `neuron<float>`: a bias and one weight per input (neuron.h). -/
structure Neuron where
  bias : ℚ
  weights : List ℚ
deriving DecidableEq

/-- Model of `neuron::input_size()`: number of inputs the neuron accepts. -/
def Neuron.input_size (n : Neuron) : ℕ := n.weights.length

/-- Model of `neuron::to_weights()`: bias first, then the weights (neuron.cc). -/
def Neuron.to_weights (n : Neuron) : List ℚ := n.bias :: n.weights

/-- Model of `neuron::from_weights(input_size, weights)` (neuron.cc): requires exactly
`input_size + 1` values; the first is the bias, the rest are the weights. -/
def Neuron.from_weights (inputSize : ℕ) (ws : List ℚ) : Except NeuronError Neuron :=
  match ws with
  | [] => .error .invalidWeightsSize
  | b :: rest =>
    if rest.length = inputSize then .ok ⟨b, rest⟩ else .error .invalidWeightsSize

/-- Model of `neuron::propagate(inputs)` (neuron.cc): checks the input arity, then
returns `max(0, bias + dot(weights, inputs))` (ReLU). -/
def Neuron.propagate (n : Neuron) (inputs : List ℚ) : Except NeuronError ℚ :=
  if inputs.length = n.weights.length then
    .ok (max 0 (n.bias + (List.zipWith (· * ·) inputs n.weights).sum))
  else .error .invalidInputSize

/-- Model of `layer<float>`: a list of neurons (layer.h). -/
structure Layer where
  neurons : List Neuron
deriving DecidableEq

/-- Model of `layer::input_size()` (layer.h): arity of the first neuron, 0 if empty. -/
def Layer.input_size (l : Layer) : ℕ :=
  match l.neurons with
  | [] => 0
  | n :: _ => n.input_size

/-- Model of `layer::size()`: the number of neurons. -/
def Layer.size (l : Layer) : ℕ := l.neurons.length

/-- Model of `layer::weight_count()` (layer.h): `(input_size + 1) * neuron_count`. -/
def Layer.weight_count (l : Layer) : ℕ :=
  match l.neurons with
  | [] => 0
  | n :: _ => (n.input_size + 1) * l.neurons.length

/-- Model of `layer::weights()` (layer.cc): concatenation of every neuron's
`to_weights()` in declaration order. -/
def Layer.weights (l : Layer) : List ℚ := (l.neurons.map Neuron.to_weights).flatten

/-- Model of `layer::create(neurons)` (layer.cc): fails on an empty neuron list and on
neurons that disagree on input arity. -/
def Layer.create (neurons : List Neuron) : Except LayerError Layer :=
  match neurons with
  | [] => .error .emptyNeurons
  | n :: rest =>
    if (n :: rest).all (fun m => m.input_size == n.input_size) then .ok ⟨n :: rest⟩
    else .error .mismatchedInputs

/-- The neuron-construction loop of `layer::from_weights` (layer.cc): slice
the flat weights into contiguous `(input_size + 1)`-sized chunks, one per
neuron, in order. -/
def neuronsFromWeights (inputSize : ℕ) : ℕ → List ℚ → Except LayerError (List Neuron)
  | 0, _ => .ok []
  | k + 1, ws =>
    match Neuron.from_weights inputSize (ws.take (inputSize + 1)) with
    | .error _ => .error .notEnoughWeights
    | .ok n =>
      match neuronsFromWeights inputSize k (ws.drop (inputSize + 1)) with
      | .error e => .error e
      | .ok rest => .ok (n :: rest)

/-- Model of `layer::from_weights(input_size, output_size, weights)` (layer.cc):
rejects an overall-short flat vector, then builds the neurons chunk by chunk
and validates the result through `layer::create`. -/
def Layer.from_weights (inputSize outputSize : ℕ) (ws : List ℚ) : Except LayerError Layer :=
  if ws.length < (inputSize + 1) * outputSize then .error .notEnoughWeights
  else
    match neuronsFromWeights inputSize outputSize ws with
    | .error e => .error e
    | .ok ns => Layer.create ns

/-- The neuron loop of `layer::propagate` (layer.cc): every neuron sees the
same input; any neuron failure is reported as `invalidInputSize`. -/
def propagateNeurons (inputs : List ℚ) : List Neuron → Except LayerError (List ℚ)
  | [] => .ok []
  | n :: rest =>
    match n.propagate inputs with
    | .error _ => .error .invalidInputSize
    | .ok out =>
      match propagateNeurons inputs rest with
      | .error e => .error e
      | .ok outs => .ok (out :: outs)

/-- Model of `layer::propagate(inputs)` (layer.cc). -/
def Layer.propagate (l : Layer) (inputs : List ℚ) : Except LayerError (List ℚ) :=
  if inputs.length = l.input_size then propagateNeurons inputs l.neurons
  else .error .invalidInputSize

/-- Model of `network<float>`: an ordered list of layers (network.h). -/
structure Network where
  layers : List Layer
deriving DecidableEq

/-- Model of `network::input_size()` (network.cc): arity of the first layer. -/
def Network.input_size (net : Network) : ℕ :=
  match net.layers with
  | [] => 0
  | l :: _ => l.input_size

/-- Model of `network::weights()` (network.cc): flat-map every layer's every neuron's
`to_weights()` in declaration order. -/
def Network.weights (net : Network) : List ℚ := (net.layers.map Layer.weights).flatten

/-- The layer-construction loop of `network::from_weights` (network.cc):
walk adjacent topology pairs, handing each layer its
`(topology[i] + 1) * topology[i+1]`-sized slice of the flat vector and
tracking the running offset; layer errors are translated into network
errors. -/
def layersFromWeights (ws : List ℚ) : List ℕ → ℕ → Except NetworkError (List Layer × ℕ)
  | t0 :: t1 :: rest, offset =>
    let perLayer := (t0 + 1) * t1
    match Layer.from_weights t0 t1 ((ws.drop offset).take perLayer) with
    | .error .notEnoughWeights => .error .notEnoughWeights
    | .error _ => .error .invalidLayerTopology
    | .ok l =>
      match layersFromWeights ws (t1 :: rest) (offset + perLayer) with
      | .error e => .error e
      | .ok (ls, fin) => .ok (l :: ls, fin)
  | _, offset => .ok ([], offset)

/-- Model of `network::from_weights(topology, weights)` (network.cc): at least two
topology entries, consume the flat vector layer by layer, and reject any
leftover unconsumed weights with `tooManyWeights`. -/
def Network.from_weights (topology : List ℕ) (ws : List ℚ) : Except NetworkError Network :=
  if topology.length < 2 then .error .invalidLayerCount
  else
    match layersFromWeights ws topology 0 with
    | .error e => .error e
    | .ok (ls, fin) => if fin = ws.length then .ok ⟨ls⟩ else .error .tooManyWeights

/-- The layer-chaining loop of `network::propagate` (network.cc): feed each
layer's outputs to the next; any layer failure becomes `propagationError`. -/
def propagateLayers : List Layer → List ℚ → Except NetworkError (List ℚ)
  | [], outs => .ok outs
  | l :: rest, outs =>
    match l.propagate outs with
    | .error _ => .error .propagationError
    | .ok next => propagateLayers rest next

/-- Model of `network::propagate(inputs)` (network.cc). -/
def Network.propagate (net : Network) (inputs : List ℚ) : Except NetworkError (List ℚ) :=
  if net.layers.isEmpty then .error .networkNotInitialized
  else if inputs.length ≠ net.input_size then .error .invalidInputSize
  else propagateLayers net.layers inputs

/-! ## Round-trip of the weight serialization (claim C1) -/

theorem neuron_from_weights_ok {i : ℕ} {ws : List ℚ} {n : Neuron}
    (h : Neuron.from_weights i ws = .ok n) :
    n.to_weights = ws ∧ ws.length = i + 1 := by
  cases ws with
  | nil => simp [Neuron.from_weights] at h
  | cons b rest =>
    by_cases hl : rest.length = i
    · simp [Neuron.from_weights, hl] at h
      subst h
      simp [Neuron.to_weights, hl]
    · simp [Neuron.from_weights, hl] at h

theorem Layer.create_ok {ns : List Neuron} {l : Layer}
    (h : Layer.create ns = .ok l) : l.neurons = ns := by
  cases ns with
  | nil => simp [Layer.create] at h
  | cons n rest =>
    by_cases hall : (n :: rest).all (fun m => m.input_size == n.input_size)
    · simp [Layer.create, hall] at h
      subst h
      rfl
    · simp [Layer.create, hall] at h

theorem neuronsFromWeights_ok (i : ℕ) :
    ∀ (k : ℕ) (ws : List ℚ) (ns : List Neuron),
      neuronsFromWeights i k ws = .ok ns →
      (ns.map Neuron.to_weights).flatten = ws.take ((i + 1) * k) ∧
        (i + 1) * k ≤ ws.length := by
  intro k
  induction k with
  | zero =>
    intro ws ns h
    simp [neuronsFromWeights] at h
    subst h
    simp
  | succ k ih =>
    intro ws ns h
    simp only [neuronsFromWeights] at h
    cases hn : Neuron.from_weights i (ws.take (i + 1)) with
    | error e => rw [hn] at h; simp at h
    | ok n =>
      rw [hn] at h
      cases hrec : neuronsFromWeights i k (ws.drop (i + 1)) with
      | error e => rw [hrec] at h; simp at h
      | ok rest =>
        rw [hrec] at h
        simp at h
        subst h
        obtain ⟨hw, hlen⟩ := neuron_from_weights_ok hn
        obtain ⟨hrw, hrlen⟩ := ih (ws.drop (i + 1)) rest hrec
        have hlen' : i + 1 ≤ ws.length := by
          have := List.length_take (i + 1) ws
          omega
        constructor
        · have hdroplen : (ws.drop (i + 1)).length = ws.length - (i + 1) :=
            List.length_drop ..
          calc ((n :: rest).map Neuron.to_weights).flatten
              = n.to_weights ++ (rest.map Neuron.to_weights).flatten := by simp
            _ = ws.take (i + 1) ++ (ws.drop (i + 1)).take ((i + 1) * k) := by
                rw [hw, hrw]
            _ = ws.take ((i + 1) + (i + 1) * k) := (List.take_add ws _ _).symm
            _ = ws.take ((i + 1) * (k + 1)) := by ring_nf
        · have hdroplen : (ws.drop (i + 1)).length = ws.length - (i + 1) :=
            List.length_drop ..
          have : (i + 1) * (k + 1) = (i + 1) + (i + 1) * k := by ring
          omega

theorem layer_from_weights_ok {i o : ℕ} {ws : List ℚ} {l : Layer}
    (h : Layer.from_weights i o ws = .ok l) :
    l.weights = ws.take ((i + 1) * o) ∧ (i + 1) * o ≤ ws.length := by
  by_cases hlen : ws.length < (i + 1) * o
  · simp [Layer.from_weights, hlen] at h
  · simp only [Layer.from_weights, hlen, if_false] at h
    cases hns : neuronsFromWeights i o ws with
    | error e => rw [hns] at h; simp at h
    | ok ns =>
      rw [hns] at h
      obtain ⟨hflat, hle⟩ := neuronsFromWeights_ok i o ws ns hns
      have hn := Layer.create_ok h
      refine ⟨?_, hle⟩
      rw [Layer.weights, hn, hflat]

theorem layersFromWeights_ok (ws : List ℚ) :
    ∀ (topo : List ℕ) (offset : ℕ) (ls : List Layer) (stop : ℕ),
      layersFromWeights ws topo offset = .ok (ls, stop) →
      offset ≤ stop ∧
        (ls.map Layer.weights).flatten = (ws.drop offset).take (stop - offset) := by
  intro topo
  induction topo with
  | nil =>
    intro offset ls stop h
    simp [layersFromWeights] at h
    obtain ⟨h1, h2⟩ := h
    subst h1; subst h2
    simp
  | cons t0 tail ih =>
    intro offset ls stop h
    cases tail with
    | nil =>
      simp [layersFromWeights] at h
      obtain ⟨h1, h2⟩ := h
      subst h1; subst h2
      simp
    | cons t1 rest =>
      simp only [layersFromWeights] at h
      cases hl : Layer.from_weights t0 t1 ((ws.drop offset).take ((t0 + 1) * t1)) with
      | error e => rw [hl] at h; cases e <;> simp at h
      | ok l =>
        rw [hl] at h
        cases hrec : layersFromWeights ws (t1 :: rest) (offset + (t0 + 1) * t1) with
        | error e => rw [hrec] at h; simp at h
        | ok p =>
          obtain ⟨ls', stop'⟩ := p
          rw [hrec] at h
          simp at h
          obtain ⟨h1, h2⟩ := h
          subst h1; subst h2
          obtain ⟨hle, hflat⟩ := ih (offset + (t0 + 1) * t1) ls' stop' hrec
          obtain ⟨hlw, hcount⟩ := layer_from_weights_ok hl
          have hchunk : ((ws.drop offset).take ((t0 + 1) * t1)).length =
              min ((t0 + 1) * t1) (ws.drop offset).length := List.length_take ..
          have hdl : (ws.drop offset).length = ws.length - offset := List.length_drop ..
          -- the chunk was long enough, so the layer consumed it whole
          have hfull : (t0 + 1) * t1 ≤ ws.length - offset := by omega
          have hlw' : l.weights = (ws.drop offset).take ((t0 + 1) * t1) := by
            rw [hlw, List.take_take, Nat.min_self]
          constructor
          · omega
          · calc ((l :: ls').map Layer.weights).flatten
                = l.weights ++ (ls'.map Layer.weights).flatten := by simp
              _ = (ws.drop offset).take ((t0 + 1) * t1) ++
                    (ws.drop (offset + (t0 + 1) * t1)).take (stop' - (offset + (t0 + 1) * t1)) := by
                  rw [hlw', hflat]
              _ = (ws.drop offset).take ((t0 + 1) * t1) ++
                    ((ws.drop offset).drop ((t0 + 1) * t1)).take
                      (stop' - (offset + (t0 + 1) * t1)) := by
                  rw [List.drop_drop]
              _ = (ws.drop offset).take
                    ((t0 + 1) * t1 + (stop' - (offset + (t0 + 1) * t1))) := by
                  rw [List.take_add]
              _ = (ws.drop offset).take (stop' - offset) := by
                  congr 1
                  omega

/-- Claim C1: for every layer topology with at least two entries and every
flat weight vector `W` for which `network::from_weights(topology, W)`
succeeds, `weights()` on the resulting network returns exactly `W` — the
bias-first, neuron-by-neuron, layer-by-layer flattening order of `weights()`
matches the consumption order of `from_weights`. -/
theorem network_from_weights_roundtrip (topology : List ℕ) (ws : List ℚ) (net : Network)
    (htop : 2 ≤ topology.length)
    (h : Network.from_weights topology ws = .ok net) :
    net.weights = ws := by
  have hlt : ¬ topology.length < 2 := by omega
  simp only [Network.from_weights, hlt, if_false] at h
  cases hrun : layersFromWeights ws topology 0 with
  | error e => rw [hrun] at h; simp at h
  | ok p =>
    obtain ⟨ls, stop⟩ := p
    rw [hrun] at h
    by_cases hstop : stop = ws.length
    · simp [hstop] at h
      subst h
      obtain ⟨-, hflat⟩ := layersFromWeights_ok ws topology 0 ls stop hrun
      rw [Network.weights]
      simp at hflat
      rw [hflat, hstop, List.take_length]
    · simp [hstop] at h

/-- Witness for C1: the round-trip theorem applied to the concrete topology
`[1, 1]` and flat vector `[1/2, 1/4]`. -/
theorem network_from_weights_roundtrip_witness :
    Network.weights ⟨[⟨[⟨1/2, [1/4]⟩]⟩]⟩ = [1/2, 1/4] :=
  network_from_weights_roundtrip [1, 1] [1/2, 1/4] ⟨[⟨[⟨1/2, [1/4]⟩]⟩]⟩
    (by decide) rfl

/-! ## Random generator model (src/libs/random/random.h)

`random_generator` owns a single `uniform_real_distribution<float>(-1, 1)`;
every public draw is derived from it.  The generator is modelled as the list
of raw draws in `[-1, 1)` it will produce, consumed front-first (an
exhausted list yields 0, a value the real distribution can also produce). -/

abbrev Rng := List ℚ

/-- Model of `random_generator::generate_weight()`: one raw draw in `[-1, 1)`. -/
def drawWeight : Rng → ℚ × Rng
  | [] => (0, [])
  | x :: r => (x, r)

/-- Model of `random_generator::generate_position()`: `(generate_weight() + 1) / 2`,
a value in `[0, 1)`. -/
def drawPosition (r : Rng) : ℚ × Rng :=
  (((drawWeight r).1 + 1) / 2, (drawWeight r).2)

/-- The float constant `k_pi = 3.14159265358979323846F` (constants.h); its
exact value as a single-precision float is `13176795 / 2^22`. -/
def kPi : ℚ := 13176795 / 4194304

/-- The float constant `k_two_pi = k_pi * 2.0F` (constants.h). -/
def kTwoPi : ℚ := 2 * kPi

/-- Model of `random_generator::generate_rotation()`:
`generate_position() * 3.14159265358979323846F`. -/
def drawRotation (r : Rng) : ℚ × Rng :=
  ((drawPosition r).1 * kPi, (drawPosition r).2)

/-! ## Genetic algorithm operators (src/libs/genetic_algorithm) -/

/-- Model of `genetic_error_code` (genetic_error.h); the accompanying message string
is irrelevant to control flow and not modelled. -/
inductive GeneticErrorCode
  | invalidParentSize
  | invalidPopulationSize
  | invalidChromosome
  | invalidSelection
  | selectionFailed
  | crossoverFailed
  | mutationFailed
  | offspringCreationFailed
deriving DecidableEq

/-- The per-gene loop of `uniform_crossover::crossover` (crossover.cc): for
each gene index, draw `generate_weight()` and keep parent 1's gene when the
draw is strictly below the configured swap probability, parent 2's gene
otherwise. -/
def uniformGenes (p : ℚ) : List (ℚ × ℚ) → Rng → List ℚ × Rng
  | [], r => ([], r)
  | g :: rest, r =>
    let d := (drawWeight r).1
    let r1 := (drawWeight r).2
    let tail := uniformGenes p rest r1
    ((if d < p then g.1 else g.2) :: tail.1, tail.2)

/-- Model of `uniform_crossover::crossover(parent1, parent2, random)` (crossover.cc):
parents of different lengths yield `invalidParentSize`. -/
def uniform_crossover (p : ℚ) (parent1 parent2 : List ℚ) (rng : Rng) :
    Except GeneticErrorCode (List ℚ × Rng) :=
  if parent1.length ≠ parent2.length then .error .invalidParentSize
  else .ok (uniformGenes p (parent1.zip parent2) rng)

/-- The per-gene loop of `gaussian_mutation::mutate` (mutation.cc): for each
gene, one `generate_position()` draw decides whether to mutate; if so, a
second `generate_position()` draw scaled by the strength gives the
magnitude and a `generate_weight()` draw gives the sign. -/
def gaussianGenes (chance strength : ℚ) : List ℚ → Rng → List ℚ × Rng
  | [], r => ([], r)
  | g :: rest, r =>
    let p := (drawPosition r).1
    let r1 := (drawPosition r).2
    if p < chance then
      let m := (drawPosition r1).1
      let r2 := (drawPosition r1).2
      let s := (drawWeight r2).1
      let r3 := (drawWeight r2).2
      let tail := gaussianGenes chance strength rest r3
      ((g + (if s > 0 then m * strength else -(m * strength))) :: tail.1, tail.2)
    else
      let tail := gaussianGenes chance strength rest r1
      (g :: tail.1, tail.2)

/-- Model of `gaussian_mutation::mutate(child, random)` (mutation.cc): mutates in
place and always succeeds. -/
def gaussian_mutate (chance strength : ℚ) (genes : List ℚ) (rng : Rng) :
    Except GeneticErrorCode (List ℚ × Rng) :=
  .ok (gaussianGenes chance strength genes rng)

/-- The effective weights of `roulette_wheel_selection::select`
(selection.cc): `max(fitness, 0.00001)` per individual. -/
def rouletteWeights (fits : List ℚ) : List ℚ := fits.map fun f => max f (1 / 100000)

/-- The cumulative-weight scan of `roulette_wheel_selection::select`
(selection.cc): return the first index whose running total reaches the
selection point, or the fallback index when rounding lets the scan run off
the end. -/
def rouletteLoop (point : ℚ) : List ℚ → ℕ → ℚ → ℕ → ℕ
  | [], _, _, last => last
  | w :: rest, i, cum, last =>
    if point ≤ cum + w then i else rouletteLoop point rest (i + 1) (cum + w) last

/-- The index `roulette_wheel_selection::select` computes for a non-empty
population: one `generate_position()` draw scaled by the total weight,
then the cumulative scan with fallback `population.size() - 1`. -/
def rouletteIndex (fits : List ℚ) (rng : Rng) : ℕ :=
  rouletteLoop ((drawPosition rng).1 * (rouletteWeights fits).sum)
    (rouletteWeights fits) 0 0 (fits.length - 1)

/-- Model of `roulette_wheel_selection::select(population, random)` (selection.cc). -/
def roulette_wheel_select (fits : List ℚ) (rng : Rng) :
    Except GeneticErrorCode (ℕ × Rng) :=
  match fits with
  | [] => .error .invalidPopulationSize
  | _ :: _ => .ok (rouletteIndex fits rng, (drawPosition rng).2)

/-- Model of `statistics` (genetic_algorithm/statistics.h): min/max/avg/median of a
population's fitness values. -/
structure GAStats where
  minFitness : ℚ
  maxFitness : ℚ
  avgFitness : ℚ
  medianFitness : ℚ
deriving DecidableEq

/-- Model of `statistics::from_population` (statistics.h), applied to the extracted
fitness values: all-zero for an empty population; otherwise min/max/sum
accumulated over the values (the float accumulators start at FLT_MAX /
FLT_LOWEST / 0, which over exact arithmetic is the plain fold from the
first element), the average is `sum / count`, and the median is read from
a sorted copy — the average of the two middle values for an even count,
the single middle value for an odd count. -/
def statsFromFitness (vals : List ℚ) : GAStats :=
  match vals with
  | [] => ⟨0, 0, 0, 0⟩
  | v :: rest =>
    let sorted := List.insertionSort (· ≤ ·) (v :: rest)
    let n := (v :: rest).length
    ⟨rest.foldl min v, rest.foldl max v, (v :: rest).sum / (n : ℚ),
      if n % 2 = 0 then (sorted.getD (n / 2 - 1) 0 + sorted.getD (n / 2) 0) / 2
      else sorted.getD (n / 2) 0⟩

/-! ## The genetic-algorithm orchestrator (genetic_algorithm.h)

`genetic_algorithm<T>::evolve` is generic: the selection, crossover and
mutation strategies are virtual-dispatch objects and the offspring factory
is `T::from_chromosome`.  The embedding takes them as a record of function
parameters over an individual type `I`. -/

/-- The strategy and adapter slots of `genetic_algorithm<T>`
(genetic_algorithm.h): selection / crossover / mutation strategies, the
static `T::from_chromosome` offspring factory, and the `individual`
interface accessors. -/
structure GAOps (I : Type) where
  select : List I → Rng → Except GeneticErrorCode (ℕ × Rng)
  crossover : List ℚ → List ℚ → Rng → Except GeneticErrorCode (List ℚ × Rng)
  mutate : List ℚ → Rng → Except GeneticErrorCode (List ℚ × Rng)
  fromChromosome : List ℚ → Except GeneticErrorCode I
  getChromosome : I → List ℚ
  getFitness : I → ℚ

/-- One iteration of the generation-filling loop of
`genetic_algorithm::evolve` (genetic_algorithm.h lines 84-123): select
parent A, select parent B, crossover, mutate, materialize the offspring;
the first error wins.  (The C++ indexes `population[*result]` unchecked;
the strategies only ever return in-range indices, and the model totalizes
the lookup with an empty-chromosome default.) -/
def buildChild {I : Type} (ops : GAOps I) (pop : List I) (rng : Rng) :
    Except GeneticErrorCode (I × Rng) :=
  match ops.select pop rng with
  | .error e => .error e
  | .ok (ia, rng1) =>
    match ops.select pop rng1 with
    | .error e => .error e
    | .ok (ib, rng2) =>
      let ca := (pop[ia]?.map ops.getChromosome).getD []
      let cb := (pop[ib]?.map ops.getChromosome).getD []
      match ops.crossover ca cb rng2 with
      | .error e => .error e
      | .ok (child, rng3) =>
        match ops.mutate child rng3 with
        | .error e => .error e
        | .ok (mutated, rng4) =>
          match ops.fromChromosome mutated with
          | .error e => .error e
          | .ok ind => .ok (ind, rng4)

/-- The `while (next_generation.size() < population.size())` loop of
`genetic_algorithm::evolve`, counting down the number of children still to
build. -/
def evolveLoop {I : Type} (ops : GAOps I) (pop : List I) :
    ℕ → Rng → Except GeneticErrorCode (List I × Rng)
  | 0, rng => .ok ([], rng)
  | k + 1, rng =>
    match buildChild ops pop rng with
    | .error e => .error e
    | .ok (child, rng') =>
      match evolveLoop ops pop k rng' with
      | .error e => .error e
      | .ok (rest, rng'') => .ok (child :: rest, rng'')

/-- Model of `genetic_algorithm::evolve(population, random_gen)`
(genetic_algorithm.h): empty population → error; statistics are computed
over the pre-evolution population; then the loop fills a next generation of
`population.size()` children, any operator error aborting the whole call. -/
def gaEvolve {I : Type} (ops : GAOps I) (pop : List I) (rng : Rng) :
    Except GeneticErrorCode (List I × GAStats × Rng) :=
  if pop.isEmpty then .error .invalidPopulationSize
  else
    let stats := statsFromFitness (pop.map ops.getFitness)
    match evolveLoop ops pop pop.length rng with
    | .error e => .error e
    | .ok (next, rng') => .ok (next, stats, rng')

/-! ## Uniform crossover at a concrete failing input (claim C2)

The claim and the spec say the child keeps parent a's gene with probability
`p` (the configured swap probability).  The code compares a raw
`generate_weight()` draw — uniform on `[-1, 1)` — against `p`, so parent
a's gene is kept for every draw in `[-1, p)`, a fraction `(p + 1) / 2` of
the draw space, not `p`.  The repository's own crossover_test.cc expects a
parent-a gene ratio below 0.3 at `p = 0.1`; the code produces 0.55. -/

/-- Claim C2, evaluation at the failing input: with swap probability 1/10,
the draw 0 — which a Bernoulli(1/10) keep-decision on the unit interval
(position `(0+1)/2 = 1/2`) would send to parent b — keeps parent a's gene,
at every one of the four gene positions; the equal-length check itself
behaves as claimed. -/
theorem uniform_crossover_keeps_a_on_draw_zero :
    uniform_crossover (1 / 10) [1, 2, 3, 4] [5, 6, 7, 8] [0, 0, 0, 0] =
        .ok ([1, 2, 3, 4], []) ∧
    uniform_crossover (1 / 10) [1, 2, 3] [5, 6, 7, 8] [0, 0, 0] =
        .error .invalidParentSize := by
  constructor
  · norm_num [uniform_crossover, uniformGenes, drawWeight]
  · norm_num [uniform_crossover]

/-! ## Error propagation through evolve (claims C4 and C5) -/

theorem evolveLoop_ok_length {I : Type} (ops : GAOps I) (pop : List I) :
    ∀ (k : ℕ) (rng rng' : Rng) (l : List I),
      evolveLoop ops pop k rng = .ok (l, rng') → l.length = k := by
  intro k
  induction k with
  | zero =>
    intro rng rng' l h
    simp [evolveLoop] at h
    simp [h.1]
  | succ k ih =>
    intro rng rng' l h
    cases hb : buildChild ops pop rng with
    | error e => simp [evolveLoop, hb] at h
    | ok cr =>
      obtain ⟨child, rng1⟩ := cr
      cases hrec : evolveLoop ops pop k rng1 with
      | error e => simp [evolveLoop, hb, hrec] at h
      | ok p =>
        obtain ⟨rest, rng2⟩ := p
        simp [evolveLoop, hb, hrec] at h
        have hr := ih rng1 rng2 rest hrec
        rw [← h.1]
        simp [hr]

theorem evolveLoop_error_after {I : Type} (ops : GAOps I) (pop : List I) :
    ∀ (j n : ℕ) (rng rng_j : Rng) (acc : List I) (e : GeneticErrorCode),
      j < n →
      evolveLoop ops pop j rng = .ok (acc, rng_j) →
      buildChild ops pop rng_j = .error e →
      evolveLoop ops pop n rng = .error e := by
  intro j
  induction j with
  | zero =>
    intro n rng rng_j acc e hj h0 herr
    simp [evolveLoop] at h0
    cases n with
    | zero => omega
    | succ m =>
      rw [← h0.2] at herr
      simp [evolveLoop, herr]
  | succ k ih =>
    intro n rng rng_j acc e hj hcur herr
    cases hb : buildChild ops pop rng with
    | error e0 => simp [evolveLoop, hb] at hcur
    | ok cr =>
      obtain ⟨child, rng1⟩ := cr
      cases hrec : evolveLoop ops pop k rng1 with
      | error e0 => simp [evolveLoop, hb, hrec] at hcur
      | ok p =>
        obtain ⟨rest, rng2⟩ := p
        simp [evolveLoop, hb, hrec] at hcur
        cases n with
        | zero => omega
        | succ m =>
          have hkm : k < m := by omega
          have hrs : evolveLoop ops pop k rng1 = .ok (rest, rng_j) := by
            rw [hrec, hcur.2]
          have := ih m rng1 rng_j rest e hkm hrs herr
          simp [evolveLoop, hb, this]

/-- Claim C5: whenever any selection, crossover, mutation or
offspring-factory call inside `genetic_algorithm::evolve` returns an error
— i.e. the first `j` children build fine and the `(j+1)`-st
select/select/crossover/mutate/materialize chain fails with `e` — `evolve`
returns exactly that error and no population; an empty input population is
itself an error. -/
theorem gaEvolve_error_propagation {I : Type} (ops : GAOps I) (pop : List I) (rng : Rng) :
    gaEvolve ops ([] : List I) rng = .error .invalidPopulationSize ∧
    (∀ (j : ℕ) (rng_j : Rng) (acc : List I) (e : GeneticErrorCode),
      j < pop.length →
      evolveLoop ops pop j rng = .ok (acc, rng_j) →
      buildChild ops pop rng_j = .error e →
      gaEvolve ops pop rng = .error e) := by
  constructor
  · simp [gaEvolve]
  · intro j rng_j acc e hj hcur herr
    have hne : pop.isEmpty = false := by
      cases pop with
      | nil => simp at hj
      | cons a t => rfl
    have hloop := evolveLoop_error_after ops pop j pop.length rng rng_j acc e hj hcur herr
    simp [gaEvolve, hne, hloop]

/-- An operator record whose selection strategy always fails; used only to
witness the error-propagation theorem on a concrete population. -/
def opsBad : GAOps ℚ :=
  ⟨fun _ _ => .error .selectionFailed, fun a _ r => .ok (a, r),
   fun c r => .ok (c, r), fun _ => .ok 0, fun _ => [], fun x => x⟩

/-- Witness for C5: with an always-failing selection strategy, evolve on the
population `[1]` reports exactly the selection error, and on the empty
population the invalid-population-size error. -/
theorem gaEvolve_error_propagation_witness :
    gaEvolve opsBad ([] : List ℚ) [] = .error .invalidPopulationSize ∧
    gaEvolve opsBad [(1 : ℚ)] [] = .error .selectionFailed :=
  ⟨(gaEvolve_error_propagation opsBad ([] : List ℚ) []).1,
   (gaEvolve_error_propagation opsBad [(1 : ℚ)] []).2 0 [] [] .selectionFailed
     (by decide) rfl rfl⟩

/-! ## Population statistics (claim C6) -/

theorem foldl_min_le (l : List ℚ) :
    ∀ a : ℚ, l.foldl min a ≤ a ∧ ∀ x ∈ l, l.foldl min a ≤ x := by
  induction l with
  | nil => intro a; simp
  | cons y t ih =>
    intro a
    have h1 := (ih (min a y)).1
    have h2 := (ih (min a y)).2
    simp only [List.foldl_cons]
    constructor
    · exact le_trans h1 (min_le_left a y)
    · intro x hx
      rcases List.mem_cons.mp hx with hxy | hxt
      · subst hxy
        exact le_trans h1 (min_le_right a x)
      · exact h2 x hxt

theorem foldl_min_mem (l : List ℚ) :
    ∀ a : ℚ, l.foldl min a = a ∨ l.foldl min a ∈ l := by
  induction l with
  | nil => intro a; left; rfl
  | cons y t ih =>
    intro a
    simp only [List.foldl_cons]
    rcases ih (min a y) with h | h
    · rcases min_choice a y with hm | hm
      · left; rw [h, hm]
      · right; rw [h, hm]; exact List.mem_cons_self y t
    · right; exact List.mem_cons_of_mem y h

theorem foldl_max_ge (l : List ℚ) :
    ∀ a : ℚ, a ≤ l.foldl max a ∧ ∀ x ∈ l, x ≤ l.foldl max a := by
  induction l with
  | nil => intro a; simp
  | cons y t ih =>
    intro a
    have h1 := (ih (max a y)).1
    have h2 := (ih (max a y)).2
    simp only [List.foldl_cons]
    constructor
    · exact le_trans (le_max_left a y) h1
    · intro x hx
      rcases List.mem_cons.mp hx with hxy | hxt
      · subst hxy
        exact le_trans (le_max_right a x) h1
      · exact h2 x hxt

theorem foldl_max_mem (l : List ℚ) :
    ∀ a : ℚ, l.foldl max a = a ∨ l.foldl max a ∈ l := by
  induction l with
  | nil => intro a; left; rfl
  | cons y t ih =>
    intro a
    simp only [List.foldl_cons]
    rcases ih (max a y) with h | h
    · rcases max_choice a y with hm | hm
      · left; rw [h, hm]
      · right; rw [h, hm]; exact List.mem_cons_self y t
    · right; exact List.mem_cons_of_mem y h

/-- Claim C6: `statistics::from_population` returns all-zero statistics for
the empty population; otherwise the min/max fields are the minimum and
maximum of the fitness values and the avg field is their mean; the median
is read off a sorted copy, in particular `[10,20,30,40]` yields
min 10 / max 40 / avg 25 / median 25 (average of the two middle values) and
`[20,30,40]` yields median 30 (single middle value). -/
theorem statistics_from_population_spec :
    statsFromFitness [] = ⟨0, 0, 0, 0⟩ ∧
    (∀ (vals : List ℚ), vals ≠ [] →
      ((statsFromFitness vals).minFitness ∈ vals ∧
        ∀ x ∈ vals, (statsFromFitness vals).minFitness ≤ x) ∧
      ((statsFromFitness vals).maxFitness ∈ vals ∧
        ∀ x ∈ vals, x ≤ (statsFromFitness vals).maxFitness) ∧
      (statsFromFitness vals).avgFitness = vals.sum / (vals.length : ℚ)) ∧
    statsFromFitness [10, 20, 30, 40] = ⟨10, 40, 25, 25⟩ ∧
    statsFromFitness [20, 30, 40] = ⟨20, 40, 30, 30⟩ := by
  refine ⟨rfl, ?_,
    by norm_num [statsFromFitness, List.insertionSort, List.orderedInsert, min_def, max_def],
    by norm_num [statsFromFitness, List.insertionSort, List.orderedInsert, min_def, max_def]⟩
  intro vals hne
  cases vals with
  | nil => exact absurd rfl hne
  | cons v rest =>
    have hmin : (statsFromFitness (v :: rest)).minFitness = rest.foldl min v := rfl
    have hmax : (statsFromFitness (v :: rest)).maxFitness = rest.foldl max v := rfl
    refine ⟨⟨?_, ?_⟩, ⟨?_, ?_⟩, rfl⟩
    · rw [hmin]
      rcases foldl_min_mem rest v with h | h
      · rw [h]; exact List.mem_cons_self v rest
      · exact List.mem_cons_of_mem v h
    · intro x hx
      rw [hmin]
      rcases List.mem_cons.mp hx with hxy | hxt
      · subst hxy; exact (foldl_min_le rest x).1
      · exact (foldl_min_le rest v).2 x hxt
    · rw [hmax]
      rcases foldl_max_mem rest v with h | h
      · rw [h]; exact List.mem_cons_self v rest
      · exact List.mem_cons_of_mem v h
    · intro x hx
      rw [hmax]
      rcases List.mem_cons.mp hx with hxy | hxt
      · subst hxy; exact (foldl_max_ge rest x).1
      · exact (foldl_max_ge rest v).2 x hxt

/-- Witness for C6: the min clause of the statistics theorem applied to the
concrete population `[10, 20, 30, 40]`. -/
theorem statistics_from_population_spec_witness :
    (statsFromFitness [(10 : ℚ), 20, 30, 40]).minFitness ∈ [(10 : ℚ), 20, 30, 40] :=
  ((statistics_from_population_spec.2.1 [10, 20, 30, 40] (by simp)).1).1

/-! ## Roulette-wheel selection (claim C8) -/

theorem rouletteLoop_cases (point : ℚ) :
    ∀ (ws : List ℚ) (i0 : ℕ) (cum : ℚ) (last : ℕ),
      (∃ k, k < ws.length ∧
        rouletteLoop point ws i0 cum last = i0 + k ∧
        (∀ j < k, cum + (ws.take (j + 1)).sum < point) ∧
        point ≤ cum + (ws.take (k + 1)).sum) ∨
      (rouletteLoop point ws i0 cum last = last ∧
        ∀ j < ws.length, cum + (ws.take (j + 1)).sum < point) := by
  intro ws
  induction ws with
  | nil =>
    intro i0 cum last
    right
    exact ⟨rfl, by simp⟩
  | cons w rest ih =>
    intro i0 cum last
    by_cases hle : point ≤ cum + w
    · left
      refine ⟨0, by simp, by simp [rouletteLoop, hle], by simp, ?_⟩
      simpa using hle
    · have hwlt : cum + w < point := lt_of_not_le hle
      rcases ih (i0 + 1) (cum + w) last with ⟨k, hk, hres, hlt, hge⟩ | ⟨hres, hlt⟩
      · left
        refine ⟨k + 1, by simpa using hk, ?_, ?_, ?_⟩
        · simp only [rouletteLoop, if_neg hle]
          rw [hres]
          omega
        · intro j hj
          cases j with
          | zero => simpa using hwlt
          | succ j' =>
            have h := hlt j' (by omega)
            simp only [List.take_succ_cons, List.sum_cons]
            linarith
        · have h := hge
          simp only [List.take_succ_cons, List.sum_cons]
          linarith
      · right
        refine ⟨by simp [rouletteLoop, hle, hres], ?_⟩
        intro j hj
        cases j with
        | zero => simpa using hwlt
        | succ j' =>
          have h := hlt j' (by simpa using Nat.lt_of_succ_lt_succ hj)
          simp only [List.take_succ_cons, List.sum_cons]
          linarith

/-- Claim C8: `roulette_wheel_selection::select` errors on an empty
population; otherwise it weights every individual as `max(fitness, 1e-5)`,
scales a `[0,1)` position draw by the total weight, and returns the first
index whose cumulative weight reaches that point — falling back to the last
index — so it always yields a valid index for a non-empty population. -/
theorem roulette_wheel_select_spec (fits : List ℚ) (rng : Rng) :
    roulette_wheel_select [] rng = .error .invalidPopulationSize ∧
    (fits ≠ [] →
      roulette_wheel_select fits rng =
          .ok (rouletteIndex fits rng, (drawPosition rng).2) ∧
      rouletteIndex fits rng < fits.length ∧
      (∀ j < rouletteIndex fits rng,
        ((rouletteWeights fits).take (j + 1)).sum <
          (drawPosition rng).1 * (rouletteWeights fits).sum) ∧
      ((drawPosition rng).1 * (rouletteWeights fits).sum ≤
          ((rouletteWeights fits).take (rouletteIndex fits rng + 1)).sum ∨
        rouletteIndex fits rng = fits.length - 1)) := by
  constructor
  · rfl
  · intro hne
    cases fits with
    | nil => exact absurd rfl hne
    | cons f r =>
      refine ⟨rfl, ?_⟩
      have hlen : (rouletteWeights (f :: r)).length = (f :: r).length := by
        simp [rouletteWeights]
      rcases rouletteLoop_cases ((drawPosition rng).1 * (rouletteWeights (f :: r)).sum)
          (rouletteWeights (f :: r)) 0 0 ((f :: r).length - 1) with
        ⟨k, hk, hres, hlt, hge⟩ | ⟨hres, hlt⟩
      · have hidx : rouletteIndex (f :: r) rng = k := by
          simp only [rouletteIndex]
          rw [hres]
          omega
        refine ⟨?_, ?_, ?_⟩
        · rw [hidx]; omega
        · intro j hj
          rw [hidx] at hj
          have := hlt j hj
          linarith
        · left
          rw [hidx]
          have := hge
          linarith
      · have hidx : rouletteIndex (f :: r) rng = (f :: r).length - 1 := by
          simp only [rouletteIndex]
          rw [hres]
        refine ⟨?_, ?_, ?_⟩
        · rw [hidx]; simp
        · intro j hj
          rw [hidx] at hj
          have hjlen : j < (rouletteWeights (f :: r)).length := by
            rw [hlen]; simp at hj ⊢; omega
          have := hlt j hjlen
          linarith
        · right
          exact hidx

/-- Witness for C8: the selection theorem applied to the concrete
population `[10, 20, 30, 40]` and the draw 0 (selection point 50), which
lands on index 2. -/
theorem roulette_wheel_select_spec_witness :
    roulette_wheel_select ([] : List ℚ) [] = .error .invalidPopulationSize ∧
    roulette_wheel_select [(10 : ℚ), 20, 30, 40] [0] =
      .ok (rouletteIndex [(10 : ℚ), 20, 30, 40] [0], []) ∧
    rouletteIndex [(10 : ℚ), 20, 30, 40] [0] = 2 :=
  ⟨(roulette_wheel_select_spec [] []).1,
   ((roulette_wheel_select_spec [10, 20, 30, 40] [0]).2 (by simp)).1,
   by norm_num [rouletteIndex, rouletteLoop, rouletteWeights, drawPosition, drawWeight,
     max_def]⟩

/-! ## The eye sensor (src/libs/simulation/src/eye.cc, claim C7)

`process_vision` computes, per food item, the distance
(`vector2d::length`, i.e. `hypotf`) and the bearing (`atan2f(x, y)`).
These two C library functions have no exact rational counterpart, so they
are passed in as function parameters; everything downstream of them —
range test, angle normalization, field-of-view test, cell bucketing and
accumulation — is modelled exactly. -/

/-- The C math functions the simulation calls, as explicit parameters:
`dist dx dy` models `vector2d{dx, dy}.length()` (hypotf), `atan2F x y`
models `std::atan2f(x, y)`, `cosF` / `sinF` model `cosf` / `sinf`. -/
structure GeomFns where
  dist : ℚ → ℚ → ℚ
  atan2F : ℚ → ℚ → ℚ
  cosF : ℚ → ℚ
  sinF : ℚ → ℚ

/-- Model of `vector2d` (vector2d.h): a pair of floats. -/
structure Vec2 where
  x : ℚ
  y : ℚ
deriving DecidableEq

/-- The first normalization loop of `eye::process_vision` (eye.cc):
`while (angle_diff > k_pi) angle_diff -= k_two_pi`. -/
def normDown (a : ℚ) : ℚ :=
  if h : a > kPi then normDown (a - kTwoPi) else a
termination_by (⌈(a - kPi) / kTwoPi⌉).toNat
decreasing_by
  have hpos : (0 : ℚ) < kTwoPi := by norm_num [kTwoPi, kPi]
  have harg : (a - kTwoPi - kPi) / kTwoPi = (a - kPi) / kTwoPi - 1 := by
    field_simp
    ring
  have hceil : ⌈(a - kTwoPi - kPi) / kTwoPi⌉ = ⌈(a - kPi) / kTwoPi⌉ - 1 := by
    rw [harg, Int.ceil_sub_one]
  have hge : 0 < ⌈(a - kPi) / kTwoPi⌉ :=
    Int.ceil_pos.mpr (div_pos (by linarith) hpos)
  omega

/-- The second normalization loop of `eye::process_vision` (eye.cc):
`while (angle_diff < -k_pi) angle_diff += k_two_pi`. -/
def normUp (a : ℚ) : ℚ :=
  if h : a < -kPi then normUp (a + kTwoPi) else a
termination_by (⌈(-kPi - a) / kTwoPi⌉).toNat
decreasing_by
  have hpos : (0 : ℚ) < kTwoPi := by norm_num [kTwoPi, kPi]
  have harg : (-kPi - (a + kTwoPi)) / kTwoPi = (-kPi - a) / kTwoPi - 1 := by
    field_simp
    ring
  have hceil : ⌈(-kPi - (a + kTwoPi)) / kTwoPi⌉ = ⌈(-kPi - a) / kTwoPi⌉ - 1 := by
    rw [harg, Int.ceil_sub_one]
  have hge : 0 < ⌈(-kPi - a) / kTwoPi⌉ :=
    Int.ceil_pos.mpr (div_pos (by linarith) hpos)
  omega

/-- The bearing-difference normalization of `eye::process_vision` (eye.cc):
both while loops in sequence, bringing the angle into `[-π, π]`. -/
def normalizeAngle (a : ℚ) : ℚ := normUp (normDown a)

/-- Model of `eye` (eye.h): fov range, fov angle in radians, photoreceptor count. -/
structure EyeCfg where
  fovRange : ℚ
  fovAngle : ℚ
  numCells : ℕ
deriving DecidableEq

/-- The cell computation of `eye::process_vision` (eye.cc lines 57-59):
`static_cast<int>(shifted / fov_angle * num_cells)` capped by
`min(cell, num_cells - 1)`, where `shifted` is the normalized bearing
difference plus half the fov angle. -/
def cellIndex (cfg : EyeCfg) (shifted : ℚ) : ℤ :=
  min (ratTrunc (shifted / cfg.fovAngle * (cfg.numCells : ℚ))) ((cfg.numCells : ℤ) - 1)

/-- The per-food body of the loop of `eye::process_vision` (eye.cc): skip a
food beyond `fov_range`; skip a food whose normalized bearing difference
exceeds half the fov angle in absolute value; otherwise accumulate
`(fov_range - distance) / fov_range` into the bucketed cell. -/
def processFood (geom : GeomFns) (cfg : EyeCfg) (position : Vec2) (rotation : ℚ)
    (cells : List ℚ) (foodPos : Vec2) : List ℚ :=
  let dx := foodPos.x - position.x
  let dy := foodPos.y - position.y
  let distance := geom.dist dx dy
  if distance > cfg.fovRange then cells
  else
    let angleDiff := normalizeAngle (geom.atan2F dx dy - rotation)
    if |angleDiff| > cfg.fovAngle / 2 then cells
    else
      let idx := (cellIndex cfg (angleDiff + cfg.fovAngle / 2)).toNat
      cells.set idx (cells.getD idx 0 + (cfg.fovRange - distance) / cfg.fovRange)

/-- Model of `eye::process_vision(position, rotation, food_items)` (eye.cc): start
from `num_cells` zeroed receptors and fold the per-food accumulation over
the food items in order. -/
def eye_process_vision (geom : GeomFns) (cfg : EyeCfg) (position : Vec2) (rotation : ℚ)
    (foods : List Vec2) : List ℚ :=
  foods.foldl (processFood geom cfg position rotation) (List.replicate cfg.numCells 0)

theorem processFood_length (geom : GeomFns) (cfg : EyeCfg) (position : Vec2) (rotation : ℚ)
    (cells : List ℚ) (fp : Vec2) :
    (processFood geom cfg position rotation cells fp).length = cells.length := by
  simp only [processFood]
  split
  · rfl
  · split
    · rfl
    · exact List.length_set ..

/-- Claim C7: for every position, rotation and food list,
`eye::process_vision` returns exactly `num_cells` entries; a food farther
than `fov_range`, or whose normalized bearing difference exceeds
`fov_angle/2` in absolute value, leaves every cell unchanged (contributes
exactly 0); every remaining food adds `(fov_range - distance)/fov_range` to
exactly the one cell at the clamped bucket index, leaving all other cells
unchanged, so foods bucketed into the same cell accumulate. -/
theorem eye_process_vision_spec (geom : GeomFns) (cfg : EyeCfg) (position : Vec2)
    (rotation : ℚ) (foods : List Vec2) (hcells : 0 < cfg.numCells) :
    (eye_process_vision geom cfg position rotation foods).length = cfg.numCells ∧
    (∀ (cells : List ℚ) (fp : Vec2) (d a : ℚ),
      d = geom.dist (fp.x - position.x) (fp.y - position.y) →
      a = normalizeAngle (geom.atan2F (fp.x - position.x) (fp.y - position.y) - rotation) →
      (cfg.fovRange < d ∨ cfg.fovAngle / 2 < |a|) →
      processFood geom cfg position rotation cells fp = cells) ∧
    (∀ (cells : List ℚ) (fp : Vec2) (d a : ℚ) (idx : ℕ),
      d = geom.dist (fp.x - position.x) (fp.y - position.y) →
      a = normalizeAngle (geom.atan2F (fp.x - position.x) (fp.y - position.y) - rotation) →
      idx = (cellIndex cfg (a + cfg.fovAngle / 2)).toNat →
      cells.length = cfg.numCells →
      d ≤ cfg.fovRange →
      |a| ≤ cfg.fovAngle / 2 →
      idx < cfg.numCells ∧
      processFood geom cfg position rotation cells fp =
        cells.set idx (cells.getD idx 0 + (cfg.fovRange - d) / cfg.fovRange) ∧
      ∀ j, j ≠ idx →
        (processFood geom cfg position rotation cells fp).getD j 0 = cells.getD j 0) := by
  refine ⟨?_, ?_, ?_⟩
  · have key : ∀ (fs : List Vec2) (init : List ℚ),
        (fs.foldl (processFood geom cfg position rotation) init).length = init.length := by
      intro fs
      induction fs with
      | nil => intro init; rfl
      | cons f t ih =>
        intro init
        rw [List.foldl_cons, ih, processFood_length]
    rw [eye_process_vision, key, List.length_replicate]
  · intro cells fp d a hd ha hcase
    subst hd
    subst ha
    simp only [processFood]
    rcases hcase with hfar | hang
    · rw [if_pos hfar]
    · by_cases hfar : cfg.fovRange < geom.dist (fp.x - position.x) (fp.y - position.y)
      · rw [if_pos hfar]
      · rw [if_neg hfar, if_pos hang]
  · intro cells fp d a idx hd ha hidx hlen hfar hang
    subst hd
    subst ha
    subst hidx
    have hclamp : cellIndex cfg
        (normalizeAngle (geom.atan2F (fp.x - position.x) (fp.y - position.y) - rotation) +
          cfg.fovAngle / 2) ≤ (cfg.numCells : ℤ) - 1 := min_le_right ..
    have heq : processFood geom cfg position rotation cells fp =
        cells.set (cellIndex cfg
            (normalizeAngle (geom.atan2F (fp.x - position.x) (fp.y - position.y) - rotation) +
              cfg.fovAngle / 2)).toNat
          (cells.getD (cellIndex cfg
              (normalizeAngle (geom.atan2F (fp.x - position.x) (fp.y - position.y) - rotation) +
                cfg.fovAngle / 2)).toNat 0 +
            (cfg.fovRange - geom.dist (fp.x - position.x) (fp.y - position.y)) /
              cfg.fovRange) := by
      simp only [processFood]
      rw [if_neg (not_lt.mpr hfar), if_neg (not_lt.mpr hang)]
    refine ⟨by omega, heq, ?_⟩
    intro j hj
    rw [heq]
    simp [List.getD_eq_getElem?_getD, List.getElem?_set_ne (Ne.symm hj)]

/-- Concrete geometry functions used only to witness the eye theorem:
taxicab distance and a bearing function that always looks straight ahead. -/
def geomEx : GeomFns := ⟨fun dx dy => |dx| + |dy|, fun _ _ => 0, fun _ => 1, fun _ => 0⟩

/-- Witness for C7: the eye theorem applied to a 3-cell eye with fov range 1
watching a single food half a unit away. -/
theorem eye_process_vision_spec_witness :
    (eye_process_vision geomEx ⟨1, 2, 3⟩ ⟨0, 0⟩ 0 [⟨0, 1/2⟩]).length = 3 :=
  (eye_process_vision_spec geomEx ⟨1, 2, 3⟩ ⟨0, 0⟩ 0 [⟨0, 1/2⟩] (by norm_num)).1

/-! ## Brain and animal (src/libs/simulation, claims C3 and C10) -/

/-- Model of `simulation_error` (simulation_error.h). -/
inductive SimulationError
  | noError
  | neuralNetworkError
  | invalidNetworkWeights
  | insufficientOutputs
  | invalidInputSize
  | layerPropagationFailed
  | invalidNetworkStructure
  | worldBoundsError
  | configurationError
  | invalidBrainConfig
  | invalidChromosome
  | brainOperationFailed
deriving DecidableEq

/-- Model of `sim_config` (config.h). -/
structure SimCfg where
  speedMin : ℚ
  speedMax : ℚ
  speedAccel : ℚ
  rotationAccelDeg : ℚ
  generationLength : ℕ
deriving DecidableEq

/-- Model of `brain_eye_config` (config.h). -/
structure BrainEyeCfg where
  fovRange : ℚ
  fovAngleDeg : ℚ
  numCells : ℕ
  numNeurons : ℕ
deriving DecidableEq

/-- Model of `world_config` (config.h). -/
structure WorldCfg where
  numFoods : ℕ
  numAnimals : ℕ
  foodSize : ℚ
  birdSize : ℚ
deriving DecidableEq

/-- Model of `genetic_config` (config.h). -/
structure GeneticCfg where
  mutationChance : ℚ
  mutationCoeff : ℚ
  reverse : Bool
deriving DecidableEq

/-- Model of `config` (config.h). -/
structure Config where
  brainEye : BrainEyeCfg
  genetic : GeneticCfg
  sim : SimCfg
  world : WorldCfg
deriving DecidableEq

/-- Model of `eye::eye(const brain_eye_config&)` (eye.cc): the fov angle is stored in
radians as `fov_angle_deg * (k_pi / 180)`. -/
def eyeFromConfig (cfg : Config) : EyeCfg :=
  ⟨cfg.brainEye.fovRange, cfg.brainEye.fovAngleDeg * (kPi / 180), cfg.brainEye.numCells⟩

/-- Model of `brain` (brain.h): accel scalars (the rotation accel converted from
degrees by `k_deg_to_rad`) plus the owned network. -/
structure Brain where
  speedAccel : ℚ
  rotationAccel : ℚ
  network : Network
deriving DecidableEq

/-- The `brain(config, network&&)` constructor (brain.cc lines 13-16). -/
def Brain.fromNetwork (cfg : Config) (net : Network) : Brain :=
  ⟨cfg.sim.speedAccel, cfg.sim.rotationAccelDeg * (kPi / 180), net⟩

/-- Model of `brain::topology(config)` (brain.cc): `[num_cells, num_neurons, 2]`. -/
def brainTopology (cfg : Config) : List ℕ :=
  [cfg.brainEye.numCells, cfg.brainEye.numNeurons, 2]

/-- The network-to-simulation error translation of `brain::propagate`
(brain.cc lines 31-40). -/
def mapBrainPropError : NetworkError → SimulationError
  | .invalidInputSize => .invalidInputSize
  | .propagationError => .layerPropagationFailed
  | .invalidLayerCount => .invalidNetworkStructure
  | _ => .neuralNetworkError

/-- Model of `brain::propagate(vision)` (brain.cc): run the network, require at least
two raw outputs, then `r_i = clamp(o_i, 0, 1) - 0.5`,
`speed = clamp(r0 + r1, ±speed_accel)`,
`rotation = clamp(r0 - r1, ±rotation_accel)`. -/
def Brain.propagate (b : Brain) (vision : List ℚ) : Except SimulationError (List ℚ) :=
  match b.network.propagate vision with
  | .error e => .error (mapBrainPropError e)
  | .ok response =>
    match response with
    | o0 :: o1 :: _ =>
      let r0 := clampQ o0 0 1 - 1 / 2
      let r1 := clampQ o1 0 1 - 1 / 2
      .ok [clampQ (r0 + r1) (-b.speedAccel) b.speedAccel,
           clampQ (r0 - r1) (-b.rotationAccel) b.rotationAccel]
    | _ => .error .insufficientOutputs

/-- The network-to-simulation error translation of `brain::from_chromosome`
(brain.cc lines 103-115). -/
def mapBrainBuildError : NetworkError → SimulationError
  | .invalidLayerCount => .invalidBrainConfig
  | .notEnoughWeights => .invalidChromosome
  | .tooManyWeights => .invalidChromosome
  | .invalidLayerTopology => .invalidBrainConfig
  | _ => .brainOperationFailed

/-- Model of `brain::from_chromosome(config, chromosome)` (brain.cc). -/
def Brain.from_chromosome (cfg : Config) (genes : List ℚ) : Except SimulationError Brain :=
  match Network.from_weights (brainTopology cfg) genes with
  | .error e => .error (mapBrainBuildError e)
  | .ok net => .ok (Brain.fromNetwork cfg net)

/-- Model of `brain::weights()` (brain.cc). -/
def Brain.weights (b : Brain) : List ℚ := b.network.weights

/-- Model of `animal` (animal.h): kinetic state, last vision, eye, brain and the
food-eaten counter. -/
structure Animal where
  position : Vec2
  rotation : ℚ
  vision : List ℚ
  speed : ℚ
  eye : EyeCfg
  brain : Brain
  foodEaten : ℕ
deriving DecidableEq

/-- The private `animal(config, random, brain)` constructor (animal.cc
lines 34-42): two position draws (x then y; C++ leaves the evaluation order
of the two constructor arguments unspecified, left-to-right is modelled),
one rotation draw, speed = `speed_max`, vision default-empty. -/
def Animal.create (cfg : Config) (rng : Rng) (b : Brain) : Animal × Rng :=
  let px := (drawPosition rng).1
  let rng1 := (drawPosition rng).2
  let py := (drawPosition rng1).1
  let rng2 := (drawPosition rng1).2
  let rot := (drawRotation rng2).1
  let rng3 := (drawRotation rng2).2
  (⟨⟨px, py⟩, rot, [], cfg.sim.speedMax, eyeFromConfig cfg, b, 0⟩, rng3)

/-- The `wrap` helper of animal.cc (lines 23-32): `fmod` into the range
width with an explicit negative correction, then shifted back. -/
def wrapQ (value lo hi : ℚ) : ℚ :=
  let width := hi - lo
  let w := ratFmod (value - lo) width
  (if w < 0 then w + width else w) + lo

/-- Model of `animal::process_brain(config, foods)` (animal.cc lines 44-63): always
recompute the vision; if brain propagation fails, log and return with only
the vision updated; otherwise add output 0 to the speed and clamp into
`[speed_min, speed_max]`, add output 1 to the rotation and take
`fmod(·, k_two_pi)`.  (`outputs.at(0)` / `.at(1)` cannot throw because a
successful `brain::propagate` returns exactly two outputs; the accesses are
totalized with `getD`.) -/
def Animal.process_brain (geom : GeomFns) (cfg : Config) (a : Animal)
    (foods : List Vec2) : Animal :=
  let vision := eye_process_vision geom a.eye a.position a.rotation foods
  match a.brain.propagate vision with
  | .error _ => { a with vision := vision }
  | .ok outs =>
    { a with
      vision := vision,
      speed := clampQ (a.speed + outs.getD 0 0) cfg.sim.speedMin cfg.sim.speedMax,
      rotation := ratFmod (a.rotation + outs.getD 1 0) kTwoPi }

/-- Model of `animal::process_movement()` (animal.cc lines 65-75): advance along the
heading and wrap both coordinates into `[0, 1)`. -/
def Animal.process_movement (geom : GeomFns) (a : Animal) : Animal :=
  { a with
    position :=
      ⟨wrapQ (a.position.x + a.speed * geom.cosF a.rotation) 0 1,
       wrapQ (a.position.y + a.speed * geom.sinF a.rotation) 0 1⟩ }

/-- Model of `animal::from_chromosome(config, random, chromosome)` (animal.cc
lines 93-107): a brain-construction failure is reported as
`invalid_chromosome`; otherwise a fresh random animal carries the brain. -/
def Animal.from_chromosome (cfg : Config) (rng : Rng) (genes : List ℚ) :
    Except SimulationError (Animal × Rng) :=
  match Brain.from_chromosome cfg genes with
  | .error _ => .error .invalidChromosome
  | .ok b => .ok (Animal.create cfg rng b)

/-- Model of `animal::as_chromosome()` (animal.cc): the brain's flattened weights. -/
def Animal.as_chromosome (a : Animal) : List ℚ := a.brain.weights

/-- Claim C10: if brain propagation fails inside `animal::process_brain`,
the call returns normally (the embedding is total — no error is propagated
to the caller) with only the vision field updated to the freshly computed
sensor reading; speed, rotation, position and the food counter are
unchanged. -/
theorem process_brain_failure_frame (geom : GeomFns) (cfg : Config) (a : Animal)
    (foods : List Vec2) (e : SimulationError)
    (h : a.brain.propagate
        (eye_process_vision geom a.eye a.position a.rotation foods) = .error e) :
    Animal.process_brain geom cfg a foods =
      { a with vision := eye_process_vision geom a.eye a.position a.rotation foods } := by
  simp only [Animal.process_brain, h]

/-- A brain whose network has no layers: its propagation always fails with
`network_not_initialized`, mapped to a generic neural-network error. -/
def brainBad : Brain := ⟨1, 1, ⟨[]⟩⟩

/-- Witness for C10: the frame theorem applied to a concrete animal whose
brain propagation fails; only the vision becomes the fresh (all-zero,
no food) reading. -/
theorem process_brain_failure_frame_witness :
    Animal.process_brain geomEx
        ⟨⟨1, 2, 1, 1⟩, ⟨0, 0, false⟩, ⟨0, 1, 1, 90, 2500⟩, ⟨0, 1, 1/100, 3/200⟩⟩
        ⟨⟨0, 0⟩, 0, [], 0, ⟨1, 2, 1⟩, brainBad, 0⟩ [] =
      ⟨⟨0, 0⟩, 0, [0], 0, ⟨1, 2, 1⟩, brainBad, 0⟩ :=
  process_brain_failure_frame geomEx
    ⟨⟨1, 2, 1, 1⟩, ⟨0, 0, false⟩, ⟨0, 1, 1, 90, 2500⟩, ⟨0, 1, 1/100, 3/200⟩⟩
    ⟨⟨0, 0⟩, 0, [], 0, ⟨1, 2, 1⟩, brainBad, 0⟩ [] .neuralNetworkError rfl

/-! ## The rotation update of process_brain is not wrapped into [0, 2π)
(claim C3)

`animal::process_brain` ends with `rotation_ = std::fmod(rotation_,
k_two_pi)` under the comment "Normalize rotation to [0, 2π)", but C `fmod`
keeps the sign of its first argument: whenever the brain emits a negative
rotation delta larger than the current rotation, the animal's rotation
becomes negative and stays outside `[0, 2π)`.  The `wrap` helper defined a
few lines above in the very same file performs the missing negative
correction and is used for the position, which makes the unwrapped rotation
a slip rather than intent. -/

/-- A one-input, two-output network whose outputs on vision `[0]` are
`[0, 1]`: with `r0 = -1/2` and `r1 = 1/2` the brain emits speed delta 0 and
rotation delta `clamp(-1, -rotation_accel, rotation_accel)`. -/
def netC3 : Network := ⟨[⟨[⟨0, [0]⟩, ⟨1, [0]⟩]⟩]⟩

/-- A config whose rotation accel in degrees converts to exactly 2 radians:
`(360 / k_pi) * (k_pi / 180) = 2`. -/
def cfgC3 : Config :=
  ⟨⟨1, 2, 1, 1⟩, ⟨0, 0, false⟩, ⟨0, 1, 1, 360 / kPi, 2500⟩, ⟨0, 1, 1/100, 3/200⟩⟩

def brainC3 : Brain := Brain.fromNetwork cfgC3 netC3

/-- An animal at rotation 0 with a 1-cell eye and the brain above. -/
def animalC3 : Animal := ⟨⟨0, 0⟩, 0, [], 0, eyeFromConfig cfgC3, brainC3, 0⟩

/-- Claim C3, evaluation of the code at the failing input: starting at
rotation 0, a brain step with rotation delta −1 leaves the animal at
rotation −1 — `fmod` did not wrap the negative value into `[0, 2π)` (the
claim, the spec, and the code's own comment say the result lies there; the
true wrap would give `2π − 1`). -/
theorem process_brain_rotation_not_wrapped :
    (Animal.process_brain geomEx cfgC3 animalC3 []).rotation = -1 ∧
    (Animal.process_brain geomEx cfgC3 animalC3 []).rotation < 0 := by
  have hvis : eye_process_vision geomEx animalC3.eye animalC3.position animalC3.rotation []
      = [0] := rfl
  have hprop : brainC3.propagate [0] = .ok [0, -1] := by
    simp only [Brain.propagate, Network.propagate, propagateLayers, Layer.propagate,
      propagateNeurons, Neuron.propagate, Network.input_size, Layer.input_size,
      Neuron.input_size, netC3, brainC3, Brain.fromNetwork, cfgC3]
    norm_num [clampQ, min_def, max_def, kPi]
  have hb : animalC3.brain = brainC3 := rfl
  have hrot : (Animal.process_brain geomEx cfgC3 animalC3 []).rotation =
      ratFmod (animalC3.rotation + -1) kTwoPi := by
    simp only [Animal.process_brain, hvis, hb, hprop]
    norm_num [List.getD]
  have hceil : ⌈(-1 : ℚ) / kTwoPi⌉ = 0 := by
    rw [Int.ceil_eq_zero_iff]
    constructor
    · show (-1 : ℚ) < -1 / kTwoPi
      rw [kTwoPi, kPi]
      norm_num
    · show (-1 : ℚ) / kTwoPi ≤ 0
      rw [kTwoPi, kPi]
      norm_num
  have hval : ratFmod (animalC3.rotation + -1) kTwoPi = -1 := by
    have h0 : animalC3.rotation + -1 = -1 := by
      norm_num [animalC3]
    rw [h0, ratFmod, ratTrunc]
    rw [if_neg (by rw [kTwoPi, kPi]; norm_num)]
    rw [hceil]
    ring
  rw [hrot, hval]
  norm_num

/-! ## Animal individuals, world and simulation (claims C4 and C9) -/

/-- Model of `animal_individual` (animal_individual.h): chromosome plus food-eaten
counter; fitness is the float cast of the counter. -/
structure AnimalIndividual where
  chromosome : List ℚ
  foodEaten : ℕ
deriving DecidableEq

/-- Model of `animal_individual::get_fitness()` (animal_individual.cc). -/
def AnimalIndividual.fitness (ind : AnimalIndividual) : ℚ := ind.foodEaten

/-- Model of `animal_individual::from_animal(animal)` (animal_individual.cc). -/
def AnimalIndividual.from_animal (a : Animal) : AnimalIndividual :=
  ⟨a.as_chromosome, a.foodEaten⟩

/-- Model of `animal_individual::invert_fitness(max_value)` (animal_individual.h):
`food_eaten = max_value - food_eaten` in `size_t` arithmetic; the caller
passes the maximum of the snapshot, so the subtraction never underflows and
ℕ subtraction models it exactly. -/
def AnimalIndividual.invert (maxV : ℕ) (ind : AnimalIndividual) : AnimalIndividual :=
  ⟨ind.chromosome, maxV - ind.foodEaten⟩

/-- The `max_element` fitness scan of `simulation::evolve` (simulation.cc
lines 131-136), over the food counters (dereferencing `max_element` of an
empty range is undefined in C++; the model returns 0 there). -/
def maxFoodEaten (inds : List AnimalIndividual) : ℕ :=
  (inds.map AnimalIndividual.foodEaten).foldl max 0

/-- Model of `animal_individual::from_chromosome` (animal_individual.cc): never
fails — the try/catch only guards allocation failure. -/
def AnimalIndividual.from_chromosome (genes : List ℚ) :
    Except GeneticErrorCode AnimalIndividual :=
  .ok ⟨genes, 0⟩

/-- Model of `animal_individual::into_animal(config, random)` (animal_individual.cc):
rebuild an animal from the chromosome; a brain-construction failure throws,
modelled as the error value. -/
def AnimalIndividual.into_animal (cfg : Config) (ind : AnimalIndividual) (rng : Rng) :
    Except SimulationError (Animal × Rng) :=
  Animal.from_chromosome cfg rng ind.chromosome

/-- Model of `world` (world.h): the animals and the foods (a food is only its
position). -/
structure World where
  animals : List Animal
  foods : List Vec2
deriving DecidableEq

/-- Model of `simulation` (simulation.h): config, world, age and generation. -/
structure Simulation where
  config : Config
  world : World
  age : ℕ
  generation : ℕ
deriving DecidableEq

/-- Model of `cshorelark::simulation::statistics` (simulation/statistics.h): the
generation number plus the genetic-algorithm statistics. -/
structure SimStats where
  generation : ℕ
  gaStats : GAStats
deriving DecidableEq

/-- The exception `simulation::evolve` / `into_animal` can throw
(simulation.cc line 161, animal_individual.cc line 48). -/
inductive EvolveThrow
  | evolveFailed
  | intoAnimalFailed
deriving DecidableEq

/-- The concrete strategy wiring of `simulation::evolve` (simulation.cc
lines 149-153): roulette-wheel selection, uniform crossover with the
default swap probability 0.5, gaussian mutation with the configured chance
and coefficient, and the `animal_individual` adapter. -/
def simOps (cfg : Config) : GAOps AnimalIndividual :=
  { select := fun pop => roulette_wheel_select (pop.map AnimalIndividual.fitness)
    crossover := uniform_crossover (1 / 2)
    mutate := gaussian_mutate cfg.genetic.mutationChance cfg.genetic.mutationCoeff
    fromChromosome := AnimalIndividual.from_chromosome
    getChromosome := AnimalIndividual.chromosome
    getFitness := AnimalIndividual.fitness }

/-- The conversion loop of `simulation::evolve` (simulation.cc lines
168-177): every evolved individual back into a fresh animal.  (The
`dynamic_cast` always succeeds — every individual the factory produces is
an `animal_individual` — so the model converts unconditionally.) -/
def intoAnimals (cfg : Config) : List AnimalIndividual → Rng →
    Except EvolveThrow (List Animal × Rng)
  | [], rng => .ok ([], rng)
  | ind :: rest, rng =>
    match AnimalIndividual.into_animal cfg ind rng with
    | .error _ => .error .intoAnimalFailed
    | .ok (a, rng') =>
      match intoAnimals cfg rest rng' with
      | .error e => .error e
      | .ok (tail, rng'') => .ok (a :: tail, rng'')

/-- Model of `food::randomize_position` applied to every food (simulation.cc lines
183-185): one x draw then one y draw per food, in order. -/
def randomizeFoods : List Vec2 → Rng → List Vec2 × Rng
  | [], rng => ([], rng)
  | _ :: rest, rng =>
    let px := (drawPosition rng).1
    let rng1 := (drawPosition rng).2
    let py := (drawPosition rng1).1
    let rng2 := (drawPosition rng1).2
    let t := randomizeFoods rest rng2
    (⟨px, py⟩ :: t.1, t.2)

/-- Model of `simulation::evolve(random)` (simulation.cc lines 110-188): reset age,
increment generation, snapshot the animals as individuals, optionally
invert fitness, run the genetic algorithm (a GA error throws), convert the
evolved individuals back into fresh animals, replace the animal vector
wholesale, reposition all food, and return the statistics tagged
`generation_ - 1`. -/
def Simulation.evolve (st : Simulation) (rng : Rng) :
    Except EvolveThrow (SimStats × Simulation × Rng) :=
  let inds0 := st.world.animals.map AnimalIndividual.from_animal
  let inds := if st.config.genetic.reverse then
      inds0.map (AnimalIndividual.invert (maxFoodEaten inds0))
    else inds0
  match gaEvolve (simOps st.config) inds rng with
  | .error _ => .error .evolveFailed
  | .ok (evolved, gaStats, rng1) =>
    match intoAnimals st.config evolved rng1 with
    | .error e => .error e
    | .ok (newAnimals, rng2) =>
      let foodsR := randomizeFoods st.world.foods rng2
      .ok (⟨st.generation + 1 - 1, gaStats⟩,
        { st with
          world := ⟨newAnimals, foodsR.1⟩,
          age := 0,
          generation := st.generation + 1 },
        foodsR.2)

/-- Model of `simulation::try_evolving(random)` (simulation.cc lines 100-108):
increment the age; evolve exactly when the incremented age exceeds the
generation length, otherwise report nothing. -/
def Simulation.try_evolving (st : Simulation) (rng : Rng) :
    Except EvolveThrow (Option SimStats × Simulation × Rng) :=
  let st' := { st with age := st.age + 1 }
  if st.config.sim.generationLength < st'.age then
    match st'.evolve rng with
    | .error e => .error e
    | .ok (stats, st'', rng') => .ok (some stats, st'', rng')
  else .ok (none, st', rng)

/-- The inner food loop of `simulation::process_collisions` (simulation.cc
lines 69-83) for one animal: each food within `food_size + bird_size`
increments the animal's counter and is repositioned (two draws) before the
scan continues. -/
def collideFoods (geom : GeomFns) (cfg : Config) (a : Animal) :
    List Vec2 → Rng → Animal × List Vec2 × Rng
  | [], rng => (a, [], rng)
  | f :: rest, rng =>
    if geom.dist (a.position.x - f.x) (a.position.y - f.y) ≤
        cfg.world.foodSize + cfg.world.birdSize then
      let px := (drawPosition rng).1
      let rng1 := (drawPosition rng).2
      let py := (drawPosition rng1).1
      let rng2 := (drawPosition rng1).2
      let t := collideFoods geom cfg { a with foodEaten := a.foodEaten + 1 } rest rng2
      (t.1, ⟨px, py⟩ :: t.2.1, t.2.2)
    else
      let t := collideFoods geom cfg a rest rng
      (t.1, f :: t.2.1, t.2.2)

/-- The outer animal loop of `simulation::process_collisions`
(simulation.cc lines 68-84): later animals see the already-repositioned
foods. -/
def collideAnimals (geom : GeomFns) (cfg : Config) :
    List Animal → List Vec2 → Rng → List Animal × List Vec2 × Rng
  | [], foods, rng => ([], foods, rng)
  | a :: rest, foods, rng =>
    let t := collideFoods geom cfg a foods rng
    let r := collideAnimals geom cfg rest t.2.1 t.2.2
    (t.1 :: r.1, r.2.1, r.2.2)

/-- Model of `simulation::step(random)` (simulation.cc lines 52-57): collide,
sense/think, move, then maybe evolve. -/
def Simulation.step (geom : GeomFns) (st : Simulation) (rng : Rng) :
    Except EvolveThrow (Option SimStats × Simulation × Rng) :=
  let c := collideAnimals geom st.config st.world.animals st.world.foods rng
  let animals2 := c.1.map fun a => Animal.process_brain geom st.config a c.2.1
  let animals3 := animals2.map (Animal.process_movement geom)
  Simulation.try_evolving { st with world := ⟨animals3, c.2.1⟩ } c.2.2

theorem gaEvolve_ok_length {I : Type} (ops : GAOps I) (pop : List I) (rng : Rng)
    (next : List I) (stats : GAStats) (rng' : Rng)
    (h : gaEvolve ops pop rng = .ok (next, stats, rng')) :
    next.length = pop.length := by
  by_cases hemp : pop.isEmpty = true
  · simp [gaEvolve, hemp] at h
  · have hemp' : pop.isEmpty = false := by simpa using hemp
    cases hloop : evolveLoop ops pop pop.length rng with
    | error e => simp [gaEvolve, hemp', hloop] at h
    | ok p =>
      obtain ⟨next0, rng2⟩ := p
      simp [gaEvolve, hemp', hloop] at h
      rw [← h.1]
      exact evolveLoop_ok_length ops pop pop.length rng rng2 next0 hloop

theorem intoAnimals_ok_length (cfg : Config) :
    ∀ (inds : List AnimalIndividual) (rng : Rng) (l : List Animal) (rng' : Rng),
      intoAnimals cfg inds rng = .ok (l, rng') → l.length = inds.length := by
  intro inds
  induction inds with
  | nil =>
    intro rng l rng' h
    simp [intoAnimals] at h
    simp [h.1]
  | cons ind rest ih =>
    intro rng l rng' h
    cases hm : AnimalIndividual.into_animal cfg ind rng with
    | error e => simp [intoAnimals, hm] at h
    | ok p =>
      obtain ⟨a, rng1⟩ := p
      cases hrec : intoAnimals cfg rest rng1 with
      | error e => simp [intoAnimals, hm, hrec] at h
      | ok q =>
        obtain ⟨tail, rng2⟩ := q
        simp [intoAnimals, hm, hrec] at h
        rw [← h.1]
        simp [ih rng1 tail rng2 hrec]

theorem evolve_ok_shape (st : Simulation) (rng : Rng) (stats : SimStats)
    (st' : Simulation) (rng' : Rng)
    (h : Simulation.evolve st rng = .ok (stats, st', rng')) :
    stats.generation = st.generation ∧ st'.age = 0 ∧
    st'.generation = st.generation + 1 ∧
    st'.world.animals.length = st.world.animals.length := by
  simp only [Simulation.evolve] at h
  cases hga : gaEvolve (simOps st.config)
      (if st.config.genetic.reverse then
        (st.world.animals.map AnimalIndividual.from_animal).map
          (AnimalIndividual.invert
            (maxFoodEaten (st.world.animals.map AnimalIndividual.from_animal)))
      else st.world.animals.map AnimalIndividual.from_animal) rng with
  | error e => rw [hga] at h; simp at h
  | ok trip =>
    obtain ⟨evolved, gaStats, rng1⟩ := trip
    rw [hga] at h
    dsimp only at h
    cases hin : intoAnimals st.config evolved rng1 with
    | error e => rw [hin] at h; simp at h
    | ok q =>
      obtain ⟨newAnimals, rng2⟩ := q
      rw [hin] at h
      simp at h
      obtain ⟨hstats, hst, hrng⟩ := h
      have hlen1 : newAnimals.length = evolved.length :=
        intoAnimals_ok_length st.config evolved rng1 newAnimals rng2 hin
      have hlen2 : evolved.length = st.world.animals.length := by
        have := gaEvolve_ok_length (simOps st.config) _ rng evolved gaStats rng1 hga
        rw [this]
        by_cases hrev : st.config.genetic.reverse = true
        · simp [hrev]
        · have : st.config.genetic.reverse = false := by simpa using hrev
          simp [this]
      refine ⟨?_, ?_, ?_, ?_⟩
      · rw [← hstats]
      · rw [← hst]
      · rw [← hst]
      · rw [← hst]
        simp only
        rw [hlen1, hlen2]

/-- Claim C4: a successful `genetic_algorithm::evolve` returns a next
generation of exactly the input population's length (for any strategy
wiring), and consequently `simulation::evolve` — whenever it returns —
replaces the world's animal vector with one of the same size. -/
theorem evolve_population_size_invariant {I : Type} (ops : GAOps I) (pop : List I)
    (rng : Rng) (st : Simulation) (rng0 : Rng) :
    (∀ (next : List I) (stats : GAStats) (rng' : Rng),
      gaEvolve ops pop rng = .ok (next, stats, rng') → next.length = pop.length) ∧
    (Simulation.evolve st rng0).map (fun r => r.2.1.world.animals.length) =
      (Simulation.evolve st rng0).map (fun _ => st.world.animals.length) := by
  constructor
  · intro next stats rng' h
    exact gaEvolve_ok_length ops pop rng next stats rng' h
  · cases hev : Simulation.evolve st rng0 with
    | error e => simp [Except.map]
    | ok trip =>
      obtain ⟨stats, st', rng'⟩ := trip
      have := (evolve_ok_shape st rng0 stats st' rng' hev).2.2.2
      simp [Except.map, this]

/-- A trivial operator record (constant selection, parent-a crossover,
identity mutation, constant factory); used only to witness the
population-size theorem on a concrete one-individual population. -/
def opsId : GAOps ℚ :=
  ⟨fun _ r => .ok (0, r), fun a _ r => .ok (a, r), fun c r => .ok (c, r),
   fun _ => .ok 7, fun _ => [], fun x => x⟩

/-- A neutral concrete configuration for witnesses. -/
def cfgEx : Config :=
  ⟨⟨1, 2, 1, 1⟩, ⟨0, 0, false⟩, ⟨0, 1, 1, 90, 2500⟩, ⟨0, 1, 1/100, 3/200⟩⟩

/-- A fresh simulation with no animals, no foods, age 0, generation 0. -/
def stEx : Simulation := ⟨cfgEx, ⟨[], []⟩, 0, 0⟩

/-- Witness for C4: the population-size theorem applied to a concrete
one-individual evolve run (which produces one child) and a concrete
simulation evolve. -/
theorem evolve_population_size_invariant_witness :
    ([(7 : ℚ)]).length = ([(5 : ℚ)]).length ∧
    (Simulation.evolve stEx []).map (fun r => r.2.1.world.animals.length) =
      (Simulation.evolve stEx []).map (fun _ => stEx.world.animals.length) :=
  ⟨(evolve_population_size_invariant opsId [(5 : ℚ)] [] stEx []).1 [7] ⟨5, 5, 5, 5⟩ []
     (by norm_num [gaEvolve, evolveLoop, buildChild, opsId, statsFromFitness,
       List.insertionSort, List.orderedInsert]),
   (evolve_population_size_invariant opsId [(5 : ℚ)] [] stEx []).2⟩

theorem try_evolving_proj (st : Simulation) (rng : Rng) :
    (st.age + 1 ≤ st.config.sim.generationLength →
      (Simulation.try_evolving st rng).map (fun r => (r.1, r.2.1.age, r.2.1.generation)) =
        .ok (none, st.age + 1, st.generation)) ∧
    (st.config.sim.generationLength < st.age + 1 →
      (Simulation.try_evolving st rng).map
          (fun r => (r.1.map SimStats.generation, r.2.1.age, r.2.1.generation)) =
        (Simulation.try_evolving st rng).map
          (fun _ => (some st.generation, 0, st.generation + 1))) := by
  constructor
  · intro h
    have hcond : ¬ st.config.sim.generationLength < st.age + 1 := not_lt.mpr h
    simp only [Simulation.try_evolving]
    rw [if_neg hcond]
    rfl
  · intro h
    simp only [Simulation.try_evolving]
    rw [if_pos h]
    cases hev : Simulation.evolve { st with age := st.age + 1 } rng with
    | error e => rfl
    | ok trip =>
      obtain ⟨stats, st2, rng2⟩ := trip
      obtain ⟨hg, ha, hgen, -⟩ := evolve_ok_shape _ _ _ _ _ hev
      simp only at hg hgen
      simp [Except.map, hg, ha, hgen]

/-- Claim C9: every `simulation::step` increments the age by exactly 1; when
the incremented age does not exceed the generation length, step reports
nothing and leaves the generation unchanged; when it does, step runs
`evolve` — whenever that returns, the age has been reset to 0, the
generation incremented by exactly 1, and the returned statistics carry the
generation just completed. -/
theorem simulation_step_spec (geom : GeomFns) (st : Simulation) (rng : Rng) :
    (st.age + 1 ≤ st.config.sim.generationLength →
      (Simulation.step geom st rng).map (fun r => (r.1, r.2.1.age, r.2.1.generation)) =
        .ok (none, st.age + 1, st.generation)) ∧
    (st.config.sim.generationLength < st.age + 1 →
      (Simulation.step geom st rng).map
          (fun r => (r.1.map SimStats.generation, r.2.1.age, r.2.1.generation)) =
        (Simulation.step geom st rng).map
          (fun _ => (some st.generation, 0, st.generation + 1))) := by
  constructor
  · intro h
    exact (try_evolving_proj _ _).1 h
  · intro h
    exact (try_evolving_proj _ _).2 h

/-- A simulation sitting exactly at the generation boundary. -/
def stBoundary : Simulation := ⟨cfgEx, ⟨[], []⟩, 2500, 3⟩

/-- Witness for C9: the step theorem applied to a fresh simulation (age
advances 0 → 1, no statistics) and to one at the generation boundary
(statistics tagged 3, age reset, generation 3 → 4). -/
theorem simulation_step_spec_witness :
    (Simulation.step geomEx stEx []).map (fun r => (r.1, r.2.1.age, r.2.1.generation)) =
      .ok (none, 1, 0) ∧
    (Simulation.step geomEx stBoundary []).map
        (fun r => (r.1.map SimStats.generation, r.2.1.age, r.2.1.generation)) =
      (Simulation.step geomEx stBoundary []).map (fun _ => (some 3, 0, 4)) :=
  ⟨(simulation_step_spec geomEx stEx []).1 (by decide),
   (simulation_step_spec geomEx stBoundary []).2 (by decide)⟩

end Shorelark
